import Mathlib

/-!
Shallow embedding of the remote job-submission client of
`dash_hummingbird_components` (files `exec.py` and the live-polling
callback of `components.py`), together with theorems settling the
specification's claims about it.

Python dictionaries are modelled as association lists in insertion
order (Python dicts preserve insertion order and `next(iter(d.keys()))`
returns the first key); raised exceptions are modelled as `none` /
`Except.error`; byte strings are lists of naturals below 256.
-/

/-- A value appearing in the pueue status JSON: a string, an integer
(e.g. an exit code), or a nested mapping. -/
inductive PueueVal where
  | str : String → PueueVal
  | int : Int → PueueVal
  | dict : List (String × PueueVal) → PueueVal

/-- Embedding of `simplify_pueue_status` (exec.py:189-203).
A string is returned unchanged; for a mapping containing the key
`"Done"` whose value is a mapping, the first key of that inner mapping
is returned; for the key `"Done"` with a non-mapping value, that value
is returned as-is; any other mapping yields its first key.  `none`
models a raised exception (`TypeError` for a non-str/non-dict input,
`StopIteration` from `next(iter(...))` on an empty mapping). -/
def simplify_pueue_status : PueueVal → Option PueueVal
  | .str s => some (.str s)
  | .dict entries =>
    match entries.find? (fun e => e.1 == "Done") with
    | some e =>
      match e.2 with
      | .dict inner => inner.head?.map (fun kv => PueueVal.str kv.1)
      | v => some v
    | none => entries.head?.map (fun kv => PueueVal.str kv.1)
  | .int _ => none

/-- Decidable companion of the side condition under which
`simplify_pueue_status` cannot hit the `StopIteration` branch on the
`"Done"` detail: when the detail under `"Done"` is itself a mapping it
is non-empty. -/
def doneDetailOk (entries : List (String × PueueVal)) : Bool :=
  match entries.find? (fun e => e.1 == "Done") with
  | some e =>
    match e.2 with
    | .dict inner => !inner.isEmpty
    | _ => true
  | none => true

/-- The terminal status labels of the live polling loop
(components.py:369, `{"Finished", "Failed", "Killed", "Success"}`). -/
def terminal_states : List String := ["Finished", "Failed", "Killed", "Success"]

/-- Embedding of the live branch of `PueueLog.__pueue_status_callback`
(components.py:366-372): the loop queries the status script one
observation per iteration; a non-terminal observation is emitted to the
progress sink and the loop continues; a terminal observation breaks the
loop and is returned.  The result is `some (emitted, final)` — the
progress-sink arguments in order, and the returned payload — or `none`
when the finite script is exhausted before a terminal status. -/
def pueue_live_poll : List String → Option (List String × String)
  | [] => none
  | s :: rest =>
    if s ∈ terminal_states then some ([], s)
    else (pueue_live_poll rest).map (fun r => (s :: r.1, r.2))

/-- Character is one of Python's `string.digits` (`"0123456789"`). -/
def isDigit09 (c : Char) : Bool := 48 ≤ c.toNat && c.toNat ≤ 57

/-- `int(...)` on a non-empty string of decimal digits
(`foldl`-style positional accumulation). -/
def digitsToNat (cs : List Char) : Nat :=
  cs.foldl (fun a c => 10 * a + (c.toNat - 48)) 0

/-- The errors the `queue` operation can surface: the group check
(`ValueError` at exec.py:179, named InvalidGroup by the spec), the
missing acknowledgement phrase (`RuntimeError` at exec.py:186, named
SubmissionError by the spec), and the `ValueError` raised by `int("")`
when the acknowledgement holds no digit at all (exec.py:184). -/
inductive QueueError where
  | invalidGroup : QueueError
  | submissionError : QueueError
  | valueError : QueueError
deriving DecidableEq

/-- Does `needle` start `hay`? -/
def startsWithL : List Char → List Char → Bool
  | [], _ => true
  | _ :: _, [] => false
  | a :: as, b :: bs => a == b && startsWithL as bs

/-- Does `needle` occur as a contiguous sublist of `hay`?  Models
Python's `needle in hay` on strings. -/
def hasSub (needle : List Char) : List Char → Bool
  | [] => startsWithL needle []
  | c :: rest => startsWithL needle (c :: rest) || hasSub needle rest

/-- The confirmation phrase checked at exec.py:183. -/
def ackPhrase : List Char := "New task added".data

/-- Embedding of the acknowledgement handling of `queue`
(exec.py:183-186): when the phrase is present, the digit characters of
the whole output are concatenated and parsed with `int` (which raises
`ValueError` when there is no digit); otherwise a `RuntimeError`
(SubmissionError) is raised. -/
def parseTaskId (stdout : String) : Except QueueError Nat :=
  if hasSub ackPhrase stdout.data then
    if (stdout.data.filter isDigit09).isEmpty then .error .valueError
    else .ok (digitsToNat (stdout.data.filter isDigit09))
  else .error .submissionError

/-- A value of an option mapping in a `(base, options)` command. -/
inductive OptVal where
  | bool : Bool → OptVal
  | str : String → OptVal
  | int : Int → OptVal
  | none : OptVal

/-- Python's `str(...)` on the option values we model. -/
def pyStr : OptVal → String
  | .bool b => if b then "True" else "False"
  | .str s => s
  | .int i => toString i
  | .none => "None"

/-- `str.replace(r"'", r"\''")` of exec.py:53: each single quote becomes
backslash, quote, quote. -/
def escQuote : List Char → List Char
  | [] => []
  | c :: r => if c = '\'' then '\\' :: '\'' :: '\'' :: escQuote r else c :: escQuote r

/-- Embedding of `shell_escape` (exec.py:40-53): the value's string
form wrapped in single quotes, with every contained single quote
replaced by the sequence `\''`. -/
def shell_escape (v : OptVal) : String :=
  "'" ++ String.mk (escQuote (pyStr v).data) ++ "'"

/-- The three shapes of `CMDType` (exec.py:37): a literal string, a
list of tokens, or a `(base, options)` pair. -/
inductive CMD where
  | str : String → CMD
  | list : List String → CMD
  | tuple : String → List (String × OptVal) → CMD

/-- The token(s) contributed by one option of a `(base, options)`
command in the loop of exec.py:76-81. -/
def resolveOpt : String × OptVal → List String
  | (k, .bool true) => ["--" ++ k]
  | (_, .bool false) => []
  | (_, .none) => []
  | (k, v) => ["--" ++ k ++ "=" ++ shell_escape v]

/-- The loop of exec.py:76-81 over the option mapping, in order. -/
def resolveOpts : List (String × OptVal) → List String
  | [] => []
  | kv :: rest => resolveOpt kv ++ resolveOpts rest

/-- Embedding of `resolve_cmd` (exec.py:56-84). -/
def resolve_cmd : CMD → String
  | .str s => s
  | .list ts => String.intercalate " " ts
  | .tuple base opts => String.intercalate " " (base :: resolveOpts opts)

/-- Token list described by the specification's words for one option of
a `(base, options)` command: boolean true emits the bare `--name`,
boolean false and null emit nothing, and any other value emits exactly
one `--name='escaped value'` token where the escaped value is the
value's string form with each contained single quote replaced by the
escaped-quote sequence, wrapped in single quotes. -/
def spec_option_tokens : String × OptVal → List String
  | (k, .bool true) => ["--" ++ k]
  | (_, .bool false) => []
  | (_, .none) => []
  | (k, v) => ["--" ++ k ++ "='" ++ String.mk (escQuote (pyStr v).data) ++ "'"]

/-- The fixed set of recognized task groups (exec.py:177). -/
def available_tasks : List String := ["train", "inference", "create"]

/-- Embedding of `queue` (exec.py:163-186).  The transport layer is a
caller-supplied stub mapping a sent command to its stdout; the second
component of the result records every command sent through the
transport, so that "no transport call is made" is observable. -/
def queue (cmd : CMD) (task : String) (transport : String → String) :
    Except QueueError Nat × List String :=
  if task ∈ available_tasks then
    let c := resolve_cmd cmd
    let sent := "./pueue add -g " ++ task ++ " -- " ++ c
    (parseTaskId (transport sent), [sent])
  else (.error .invalidGroup, [])

/-- The line loop of the local branch of `execute` (exec.py:135-143),
given the decoded output lines of the subprocess: `acc` is the `stdout`
accumulator; the result is the returned accumulator together with the
list of arguments passed to the progress sink, one per line. -/
def execute_local_go (acc : List Char) : List (List Char) → List Char × List (List Char)
  | [] => (acc, [])
  | l :: rest =>
    let acc2 := acc ++ l
    let r := execute_local_go acc2 rest
    (r.1, acc2 :: r.2)

/-- Embedding of the local branch of `execute` (exec.py:135-143) with a
progress sink supplied: returns the final `stdout` value and the
sequence of progress-sink arguments. -/
def execute_local (lines : List (List Char)) : List Char × List (List Char) :=
  execute_local_go [] lines

/-- `a` leads `b`: `b` extends `a` on the right (the streamed buffer
never shrinks). -/
def leadsTo (a b : List Char) : Prop := ∃ t, a ++ t = b

/-- A POSIX-shell word reader restricted to the constructs
`shell_escape` can emit: outside quotes a backslash escapes the next
character and a single quote opens a quoted span; inside single quotes
every character up to the closing quote (including backslash) is
literal.  `none` models an unterminated quote or trailing backslash.
The Boolean argument is "currently inside single quotes". -/
def posixReadAux : Bool → List Char → Option (List Char)
  | false, [] => some []
  | true, [] => none
  | false, c :: rest =>
    if c = '\'' then posixReadAux true rest
    else if c = '\\' then
      match rest with
      | [] => none
      | d :: rest2 => (posixReadAux false rest2).map (fun l => d :: l)
    else (posixReadAux false rest).map (fun l => c :: l)
  | true, c :: rest =>
    if c = '\'' then posixReadAux false rest
    else (posixReadAux true rest).map (fun l => c :: l)

/-- Re-parse a shell word under POSIX single-quote rules. -/
def posix_read (s : String) : Option String :=
  (posixReadAux false s.data).map String.mk

/-- A scalar notebook parameter: an integer or a string. -/
inductive ParamVal where
  | int : Int → ParamVal
  | str : String → ParamVal
deriving DecidableEq

/-- The decimal digit characters. -/
def dChar : Nat → Char
  | 0 => '0'
  | 1 => '1'
  | 2 => '2'
  | 3 => '3'
  | 4 => '4'
  | 5 => '5'
  | 6 => '6'
  | 7 => '7'
  | 8 => '8'
  | _ => '9'

/-- Decimal digit rendering with explicit fuel (any fuel above `n`
gives the digits of `n`); the fuel keeps the recursion structural. -/
def natDigitsGo : Nat → Nat → List Char
  | 0, _ => []
  | fuel + 1, n =>
    if n < 10 then [dChar n]
    else natDigitsGo fuel (n / 10) ++ [dChar (n % 10)]

/-- Decimal digit string of a natural number, most significant first. -/
def natDigits (n : Nat) : List Char := natDigitsGo (n + 1) n

/-- Decimal rendering of an integer, as the structured-data encoding
prints integer scalars. -/
def renderInt (i : Int) : List Char :=
  if i < 0 then '-' :: natDigits i.natAbs else natDigits i.natAbs

/-- Modelled from the spec: the human-readable structured-data encoding
(YAML, produced by the external `yaml.dump` library call at
exec.py:268, which is not part of this repository) restricted to flat
mappings of scalar values — one `key: value` line per entry. -/
def renderParam : ParamVal → List Char
  | .int i => renderInt i
  | .str s => s.data

/-- One `key: value` line of the flat-mapping encoding, newline
terminated. -/
def dumpLine (k : String) (v : ParamVal) : List Char :=
  k.data ++ ':' :: ' ' :: renderParam v ++ ['\n']

/-- Modelled from the spec: serialization of a flat parameter mapping
via the human-readable structured-data encoding (exec.py:268,
`yaml.dump(parameters)`). -/
def yaml_dump : List (String × ParamVal) → List Char
  | [] => []
  | (k, v) :: rest => dumpLine k v ++ yaml_dump rest

/-- Does the character list spell an optionally-signed non-empty run of
decimal digits (the scalars the deserializer reads back as integers)? -/
def isIntLit (l : List Char) : Bool :=
  match l with
  | [] => false
  | c :: r => if c = '-' then !r.isEmpty && r.all isDigit09 else (c :: r).all isDigit09

/-- Parse an optionally-signed decimal integer literal. -/
def parseIntLit (l : List Char) : Int :=
  match l with
  | [] => 0
  | c :: r => if c = '-' then -(digitsToNat r : Int) else (digitsToNat (c :: r) : Int)

/-- Modelled from the spec: the deserializer's reading of one scalar of
the structured-data encoding — an integer literal becomes an integer,
anything else a string. -/
def parseScalar (v : List Char) : ParamVal :=
  if isIntLit v then .int (parseIntLit v) else .str (String.mk v)

/-- Modelled from the spec: the deserializer's reading of one
`key: value` line (key up to the first colon, then a colon and a
space, then the scalar). -/
def parseLine (line : List Char) : Option (String × ParamVal) :=
  match line.dropWhile (fun c => c != ':') with
  | ':' :: ' ' :: v => some (String.mk (line.takeWhile (fun c => c != ':')), parseScalar v)
  | _ => none

/-- Split a character list at every newline (the separator itself is
dropped); a trailing newline yields a final empty piece. -/
def splitNl : List Char → List (List Char)
  | [] => [[]]
  | c :: r =>
    if c = '\n' then [] :: splitNl r
    else
      match splitNl r with
      | [] => [[c]]
      | l :: ls => (c :: l) :: ls

/-- Parse each line of a document in turn. -/
def parseLines : List (List Char) → Option (List (String × ParamVal))
  | [] => some []
  | l :: ls =>
    match parseLine l with
    | some kv => (parseLines ls).map (fun m => kv :: m)
    | none => none

/-- Modelled from the spec: deserialization of the transmitted blob by
the external notebook-preparation tool — the inverse reading of the
flat-mapping encoding: every line must be newline-terminated and parse
as `key: value`. -/
def yaml_load (cs : List Char) : Option (List (String × ParamVal)) :=
  if (splitNl cs).getLast? = some [] then parseLines (splitNl cs).dropLast else none

/-- The base64 alphabet in index order. -/
def b64Alphabet : List Char :=
  "ABCDEFGHIJKLMNOPQRSTUVWXYZabcdefghijklmnopqrstuvwxyz0123456789+/".data

/-- The base64 character of a sextet. -/
def b64Char (n : Nat) : Char := b64Alphabet.getD n 'A'

/-- Position of a character in a character list, starting at `i`. -/
def b64IndexFrom : List Char → Char → Nat → Option Nat
  | [], _, _ => none
  | a :: as, c, i => if a = c then some i else b64IndexFrom as c (i + 1)

/-- The sextet of a base64 character. -/
def b64Index (c : Char) : Option Nat := b64IndexFrom b64Alphabet c 0

/-- Standard base64 encoding of a byte list (exec.py:268,
`base64.b64encode`): three bytes become four alphabet characters;
a one- or two-byte remainder is padded with `=`. -/
def b64encode : List Nat → List Char
  | [] => []
  | [b1] => [b64Char (b1 / 4), b64Char (b1 % 4 * 16), '=', '=']
  | [b1, b2] => [b64Char (b1 / 4), b64Char (b1 % 4 * 16 + b2 / 16), b64Char (b2 % 16 * 4), '=']
  | b1 :: b2 :: b3 :: rest =>
    b64Char (b1 / 4) :: b64Char (b1 % 4 * 16 + b2 / 16) ::
      b64Char (b2 % 16 * 4 + b3 / 64) :: b64Char (b3 % 64) :: b64encode rest

/-- Standard base64 decoding, the inverse of `b64encode`; `none` on any
malformed input. -/
def b64decode : List Char → Option (List Nat)
  | [] => some []
  | c1 :: c2 :: c3 :: c4 :: rest =>
    (b64Index c1).bind fun s1 =>
    (b64Index c2).bind fun s2 =>
    if c3 = '=' then
      if c4 = '=' ∧ rest = [] ∧ s2 % 16 = 0 then some [s1 * 4 + s2 / 16] else none
    else
      (b64Index c3).bind fun s3 =>
      if c4 = '=' then
        if rest = [] ∧ s3 % 4 = 0 then
          some [s1 * 4 + s2 / 16, s2 % 16 * 16 + s3 / 4]
        else none
      else
        (b64Index c4).bind fun s4 =>
        (b64decode rest).map
          (fun bs => (s1 * 4 + s2 / 16) :: (s2 % 16 * 16 + s3 / 4) :: (s3 % 4 * 64 + s4) :: bs)
  | _ => none

/-- Embedding of exec.py:268: `parameters_encoded`, the serialized
parameter mapping UTF-8 encoded (ASCII here, so the code points are the
bytes) and base64 encoded for transit. -/
def parameters_encoded (m : List (String × ParamVal)) : List Char :=
  b64encode ((yaml_dump m).map Char.toNat)

/-- Modelled from the spec: the receiving side of the transit —
base64-decode the blob and deserialize the structured-data document. -/
def decode_parameters (cs : List Char) : Option (List (String × ParamVal)) :=
  match b64decode cs with
  | some bs => yaml_load (bs.map Char.ofNat)
  | none => none

/-- Well-formedness of a flat parameter mapping for the round trip:
keys hold no colon, no newline and only ASCII; string values hold no
newline, only ASCII, and do not spell an integer literal. -/
def paramsWF : List (String × ParamVal) → Bool
  | [] => true
  | (k, v) :: rest =>
    k.data.all (fun c => c != ':' && c != '\n' && decide (c.toNat < 128)) &&
      (match v with
       | .str s => s.data.all (fun c => c != '\n' && decide (c.toNat < 128)) && !isIntLit s.data
       | .int _ => true) &&
      paramsWF rest

/-- Behind the valid group `"train"`, the first component of `queue`
is `parseTaskId` of the transport's answer. -/
theorem queue_train_fst (ack : String) (c : CMD) :
    (queue c "train" (fun _ => ack)).1 = parseTaskId ack := rfl

/-- Without the confirmation phrase, `parseTaskId` is the
SubmissionError branch. -/
theorem parseTaskId_phrase_absent (s : String)
    (h : hasSub ackPhrase s.data = false) :
    parseTaskId s = .error .submissionError := by
  unfold parseTaskId
  rw [h]
  simp

/-- With the phrase but no digit at all, `parseTaskId` is the
`int("")` ValueError branch. -/
theorem parseTaskId_no_digits (s : String)
    (hp : hasSub ackPhrase s.data = true) (hd : s.data.filter isDigit09 = []) :
    parseTaskId s = .error .valueError := by
  unfold parseTaskId
  rw [hp, hd]
  simp

/-- With the phrase and at least one digit, `parseTaskId` parses the
concatenation of all digit characters. -/
theorem parseTaskId_with_digits (s : String)
    (hp : hasSub ackPhrase s.data = true) (hd : s.data.filter isDigit09 ≠ []) :
    parseTaskId s = .ok (digitsToNat (s.data.filter isDigit09)) := by
  unfold parseTaskId
  rw [hp]
  simp [List.isEmpty_iff, hd]

/-- Unfolding of the mapping branch of `simplify_pueue_status`. -/
theorem simplify_dict_eq (entries : List (String × PueueVal)) :
    simplify_pueue_status (.dict entries) =
      (match entries.find? (fun e => e.1 == "Done") with
       | some e =>
         match e.2 with
         | .dict inner => inner.head?.map (fun kv => PueueVal.str kv.1)
         | v => some v
       | none => entries.head?.map (fun kv => PueueVal.str kv.1)) := rfl

/-- C1: status normalization returns a flat label — a plain string is
returned unchanged; a one-entry mapping under the `"Done"` wrapper
yields its inner detail's label (the inner string, or the inner
mapping's first key); any other one-entry mapping yields its outer
key; in particular the three examples of the specification hold. -/
theorem c1_simplify_status_flattening (s lbl k0 : String) (v0 : PueueVal)
    (rest : List (String × PueueVal)) (k : String) (v : PueueVal) (hk : k ≠ "Done") :
    simplify_pueue_status (.str s) = some (.str s)
    ∧ simplify_pueue_status (.dict [("Done", .str lbl)]) = some (.str lbl)
    ∧ simplify_pueue_status (.dict [("Done", .dict ((k0, v0) :: rest))]) = some (.str k0)
    ∧ simplify_pueue_status (.dict [(k, v)]) = some (.str k)
    ∧ simplify_pueue_status (.dict [("Done", .str "Success")]) = some (.str "Success")
    ∧ simplify_pueue_status (.dict [("Done", .dict [("Failed", .int 127)])]) = some (.str "Failed")
    ∧ simplify_pueue_status (.str "Running") = some (.str "Running") := by
  have hbeq : (k == "Done") = false := beq_eq_false_iff_ne.mpr hk
  refine ⟨rfl, rfl, rfl, ?_, rfl, rfl, rfl⟩
  simp [simplify_pueue_status, List.find?, hbeq]

/-- Witness for C1 at a concrete non-`"Done"` one-entry mapping. -/
theorem c1_simplify_status_flattening_witness :
    simplify_pueue_status (.dict [("Queued", .str "x")]) = some (.str "Queued") :=
  (c1_simplify_status_flattening "a" "b" "c" (.str "d") [] "Queued" (.str "x")
    (by decide)).2.2.2.1

/-- C2: polled against the status script `Running, Running, Success`,
the live loop emits exactly the two `Running` observations through the
progress sink, then returns the `Success` payload once; the terminal
`Success` label is never among the progress emissions. -/
theorem c2_poll_scenario :
    pueue_live_poll ["Running", "Running", "Success"] = some (["Running", "Running"], "Success")
    ∧ (pueue_live_poll ["Running", "Running", "Success"]).map (fun r => r.1.length) = some 2
    ∧ (pueue_live_poll ["Running", "Running", "Success"]).map (fun r => decide (r.2 ∈ r.1)) =
        some false := by
  refine ⟨rfl, rfl, by decide⟩

/-- C3 counterexample: an acknowledgement that contains the
confirmation phrase but no digit makes `queue` raise the `ValueError`
of `int("")` — it neither returns an integer id (as the claim's
biconditional requires for a phrase-bearing acknowledgement) nor fails
with a SubmissionError. -/
theorem c3_counterexample_digitless_ack :
    hasSub ackPhrase ("New task added.").data = true
    ∧ (queue (.str "c") "train" (fun _ => "New task added.")).1 =
        .error .valueError
    ∧ QueueError.valueError ≠ QueueError.submissionError := by
  refine ⟨by decide, rfl, by decide⟩

/-- C3 (amended): `queue` returns an integer task id iff the
acknowledgement contains the confirmation phrase AND at least one digit
character; with the phrase present the id is the integer parsed from
all digit characters of the text (so `"New task added 42."` yields 42),
and with the phrase absent it fails with a SubmissionError (a
phrase-bearing digitless text instead raises the `int("")` error). -/
theorem c3_amended_ack_parsing (ack : String) :
    ((∃ n, (queue (.str "c") "train" (fun _ => ack)).1 = .ok n) ↔
      (hasSub ackPhrase ack.data = true ∧ ack.data.filter isDigit09 ≠ []))
    ∧ (hasSub ackPhrase ack.data = false →
        (queue (.str "c") "train" (fun _ => ack)).1 = .error .submissionError)
    ∧ (∀ n, (queue (.str "c") "train" (fun _ => ack)).1 = .ok n →
        n = digitsToNat (ack.data.filter isDigit09))
    ∧ (queue (.str "c") "train" (fun _ => "New task added 42.")).1 = .ok 42 := by
  refine ⟨?_, ?_, ?_, rfl⟩
  · constructor
    · rintro ⟨n, hn⟩
      rw [queue_train_fst] at hn
      cases hp : hasSub ackPhrase ack.data with
      | false => rw [parseTaskId_phrase_absent ack hp] at hn; cases hn
      | true =>
        by_cases hd : ack.data.filter isDigit09 = []
        · rw [parseTaskId_no_digits ack hp hd] at hn; cases hn
        · exact ⟨rfl, hd⟩
    · rintro ⟨hp, hd⟩
      refine ⟨digitsToNat (ack.data.filter isDigit09), ?_⟩
      rw [queue_train_fst]
      exact parseTaskId_with_digits ack hp hd
  · intro h
    rw [queue_train_fst]
    exact parseTaskId_phrase_absent ack h
  · intro n hn
    rw [queue_train_fst] at hn
    cases hp : hasSub ackPhrase ack.data with
    | false => rw [parseTaskId_phrase_absent ack hp] at hn; cases hn
    | true =>
      by_cases hd : ack.data.filter isDigit09 = []
      · rw [parseTaskId_no_digits ack hp hd] at hn; cases hn
      · rw [parseTaskId_with_digits ack hp hd] at hn
        exact (Except.ok.inj hn).symm

/-- Witness for C3's amended claim at the concrete acknowledgement
`"New task added 42."`. -/
theorem c3_amended_ack_parsing_witness :
    (42 : Nat) = digitsToNat (("New task added 42.").data.filter isDigit09) :=
  (c3_amended_ack_parsing "New task added 42.").2.2.1 42 rfl

/-- C4: a group outside the fixed set {train, inference, create} makes
`queue` fail with the InvalidGroup error and the transport trace stays
empty — no remote-execution call is made. -/
theorem c4_invalid_group_no_transport (cmd : CMD) (task : String)
    (transport : String → String) (h : task ∉ available_tasks) :
    queue cmd task transport = (Except.error QueueError.invalidGroup, []) := by
  simp [queue, h]

/-- Witness for C4 at the concrete unknown group `"deploy"`. -/
theorem c4_invalid_group_no_transport_witness :
    queue (CMD.str "echo hi") "deploy" (fun _ => "New task added 1") =
      (Except.error QueueError.invalidGroup, []) :=
  c4_invalid_group_no_transport _ _ _ (by decide)

/-- C9: whenever `queue` returns an id, that id is the integer formed
by concatenating every digit character appearing anywhere in the
acknowledgement text; consequently the acknowledgement
`"New task added 42. (id 9)"`, which carries the extra digit 9 outside
the phrase's task number 42, yields 429 ≠ 42. -/
theorem c9_all_digits_concatenated :
    (∀ (ack : String) (n : Nat),
      (queue (.str "c") "train" (fun _ => ack)).1 = .ok n →
        n = digitsToNat (ack.data.filter isDigit09))
    ∧ (queue (.str "c") "train" (fun _ => "New task added 42. (id 9)")).1 = .ok 429
    ∧ (429 : Nat) ≠ 42 := by
  refine ⟨?_, rfl, by decide⟩
  intro ack n hn
  rw [queue_train_fst] at hn
  cases hp : hasSub ackPhrase ack.data with
  | false => rw [parseTaskId_phrase_absent ack hp] at hn; cases hn
  | true =>
    by_cases hd : ack.data.filter isDigit09 = []
    · rw [parseTaskId_no_digits ack hp hd] at hn; cases hn
    · rw [parseTaskId_with_digits ack hp hd] at hn
      exact (Except.ok.inj hn).symm

/-- Witness for C9 at a concrete acknowledgement. -/
theorem c9_all_digits_concatenated_witness :
    (7 : Nat) = digitsToNat (("New task added 7").data.filter isDigit09) :=
  c9_all_digits_concatenated.1 "New task added 7" 7 rfl

/-- C10 counterexample: the empty mapping is not the only input on
which normalization raises — the non-empty mapping wrapping an empty
detail under `"Done"` also raises (no inner key to take), so the
claim's "every non-empty mapping returns a string label" is false. -/
theorem c10_counterexample_done_empty_detail :
    simplify_pueue_status (.dict [("Done", .dict [])]) = none
    ∧ ([("Done", PueueVal.dict [])] : List (String × PueueVal)) ≠ [] := by
  refine ⟨rfl, by simp⟩

/-- C10 (amended): normalization returns a result for every string and
for every non-empty mapping whose `"Done"` detail, when itself a
mapping, is non-empty; it raises on the empty mapping, and the error
branch is also reachable at a non-empty mapping (`{"Done": {}}`). -/
theorem c10_amended_totality (entries : List (String × PueueVal))
    (hne : entries ≠ []) (hdet : doneDetailOk entries = true) :
    (simplify_pueue_status (.dict entries)).isSome = true
    ∧ (∀ s, (simplify_pueue_status (.str s)).isSome = true)
    ∧ simplify_pueue_status (.dict []) = none
    ∧ simplify_pueue_status (.dict [("Done", .dict [])]) = none := by
  refine ⟨?_, fun s => rfl, rfl, rfl⟩
  rw [simplify_dict_eq]
  unfold doneDetailOk at hdet
  cases hfind : entries.find? (fun e => e.1 == "Done") with
  | none =>
    cases entries with
    | nil => exact absurd rfl hne
    | cons e rest => rfl
  | some e =>
    rw [hfind] at hdet
    obtain ⟨k1, v1⟩ := e
    cases v1 with
    | dict inner =>
      cases inner with
      | nil => exact Bool.noConfusion (show false = true from hdet)
      | cons kv rest => rfl
    | str s => rfl
    | int i => rfl

/-- Witness for C10's amended claim at a concrete non-empty mapping. -/
theorem c10_amended_totality_witness :
    (simplify_pueue_status (.dict [("Queued", .int 1)])).isSome = true :=
  (c10_amended_totality [("Queued", .int 1)] (by simp) (by decide)).1

/-- C6 (code-bug evidence): `shell_escape` replaces a single quote with
the sequence backslash-quote-quote, so the escaped form of `don't`
re-parsed under POSIX single-quote rules yields `don\t` (the backslash
stays literal inside quotes and the quote pair closes and reopens the
span) instead of the original value — the round trip the specification
requires fails. -/
theorem c6_shell_escape_posix_mismatch :
    shell_escape (.str "don't") = "'don\\''t'"
    ∧ posix_read (shell_escape (.str "don't")) = some "don\\t"
    ∧ ("don\\t" : String) ≠ "don't" := by
  refine ⟨by decide, by decide, by decide⟩

/-- C5: resolving a `(base, options)` command emits the base token
first and then, per option in order, the tokens the specification
describes — `--name` alone for boolean true, nothing for boolean false
and null, and exactly one `--name='escaped value'` token (value string
form, single quotes wrapped, contained quotes replaced by the
escaped-quote sequence) for every other value — joined by single
spaces. -/
theorem c5_resolve_tuple_tokens (base : String) (opts : List (String × OptVal)) :
    resolve_cmd (.tuple base opts) =
      String.intercalate " " (base :: (opts.map spec_option_tokens).flatten) := by
  have h : resolveOpts opts = (opts.map spec_option_tokens).flatten := by
    induction opts with
    | nil => rfl
    | cons kv rest ih =>
      obtain ⟨k, v⟩ := kv
      have hj : (((k, v) :: rest).map spec_option_tokens).flatten =
          spec_option_tokens (k, v) ++ (rest.map spec_option_tokens).flatten := by
        simp
      rw [hj, ← ih]
      cases v with
      | bool b =>
        cases b with
        | true => rfl
        | false => rfl
      | none => rfl
      | str s =>
        show ("--" ++ k ++ "=" ++ shell_escape (.str s)) :: resolveOpts rest =
          ("--" ++ k ++ "='" ++ String.mk (escQuote (pyStr (.str s)).data) ++ "'") ::
            resolveOpts rest
        congr 1
        rw [shell_escape]
        ext1
        simp
      | int i =>
        show ("--" ++ k ++ "=" ++ shell_escape (.int i)) :: resolveOpts rest =
          ("--" ++ k ++ "='" ++ String.mk (escQuote (pyStr (.int i)).data) ++ "'") ::
            resolveOpts rest
        congr 1
        rw [shell_escape]
        ext1
        simp
  show String.intercalate " " (base :: resolveOpts opts) = _
  rw [h]

/-- The returned accumulator of the local execute loop is the starting
accumulator followed by all remaining lines. -/
theorem exec_go_fst (ls : List (List Char)) : ∀ acc,
    (execute_local_go acc ls).1 = acc ++ ls.flatten := by
  induction ls with
  | nil => intro acc; simp [execute_local_go]
  | cons l rest ih =>
    intro acc
    simp [execute_local_go, ih (acc ++ l)]

/-- The local execute loop calls the progress sink once per line. -/
theorem exec_go_len (ls : List (List Char)) : ∀ acc,
    (execute_local_go acc ls).2.length = ls.length := by
  induction ls with
  | nil => intro acc; rfl
  | cons l rest ih =>
    intro acc
    simp [execute_local_go, ih (acc ++ l)]

/-- The i-th progress-sink argument of the local execute loop is the
accumulator extended by the first i+1 lines. -/
theorem exec_go_get (ls : List (List Char)) : ∀ acc i
    (h : i < (execute_local_go acc ls).2.length),
    (execute_local_go acc ls).2.get ⟨i, h⟩ = acc ++ (ls.take (i + 1)).flatten := by
  induction ls with
  | nil =>
    intro acc i h
    simp [execute_local_go] at h
  | cons l rest ih =>
    intro acc i h
    cases i with
    | zero => simp [execute_local_go]
    | succ i =>
      have h' : i < (execute_local_go (acc ++ l) rest).2.length := by
        simp [execute_local_go] at h
        simpa [exec_go_len] using h
      show ((execute_local_go (acc ++ l) rest).2.get ⟨i, h'⟩) = _
      rw [ih (acc ++ l) i h']
      simp [List.take_succ_cons]

/-- On a non-empty line list the last progress-sink argument of the
local execute loop carries the whole output. -/
theorem exec_go_last (ls : List (List Char)) : ∀ acc, ls ≠ [] →
    (execute_local_go acc ls).2.getLast? = some (acc ++ ls.flatten) := by
  induction ls with
  | nil => intro acc h; exact absurd rfl h
  | cons l rest ih =>
    intro acc _
    cases rest with
    | nil => simp [execute_local_go]
    | cons l2 rest2 =>
      show ((acc ++ l) :: (execute_local_go (acc ++ l) (l2 :: rest2)).2).getLast? = _
      have hstep : (execute_local_go (acc ++ l) (l2 :: rest2)).2 =
          ((acc ++ l) ++ l2) :: (execute_local_go ((acc ++ l) ++ l2) rest2).2 := rfl
      rw [hstep, List.getLast?_cons_cons, ← hstep, ih (acc ++ l) (by simp)]
      simp

/-- C7: in local mode with a progress sink, the sink is invoked once
per output line with the cumulatively accumulated output so far; the
sequence of sink arguments grows monotonically (every earlier argument
is extended by every later one); the value returned at process exit is
the full accumulated output, which equals the last sink argument when
any line was produced. -/
theorem c7_execute_local_progress (lines : List (List Char)) (i j : Nat)
    (hij : i ≤ j) (hj : j < (execute_local lines).2.length) :
    (execute_local lines).1 = lines.flatten
    ∧ (execute_local lines).2.length = lines.length
    ∧ leadsTo ((execute_local lines).2.get ⟨i, lt_of_le_of_lt hij hj⟩)
        ((execute_local lines).2.get ⟨j, hj⟩)
    ∧ (lines ≠ [] → (execute_local lines).2.getLast? = some ((execute_local lines).1)) := by
  refine ⟨by simpa using exec_go_fst lines [], by simpa using exec_go_len lines [],
    ?_, fun hne => ?_⟩
  · show leadsTo ((execute_local_go [] lines).2.get _) ((execute_local_go [] lines).2.get _)
    rw [exec_go_get lines [] i _, exec_go_get lines [] j hj]
    refine ⟨(List.drop (i + 1) (List.take (j + 1) lines)).flatten, ?_⟩
    simp only [List.nil_append]
    rw [← List.flatten_append]
    congr 1
    have hmin : List.take (i + 1) lines = List.take (i + 1) (List.take (j + 1) lines) := by
      rw [List.take_take]
      congr 1
      omega
    rw [hmin, List.take_append_drop]
  · show (execute_local_go [] lines).2.getLast? = some ((execute_local_go [] lines).1)
    rw [exec_go_last lines [] hne, exec_go_fst lines []]

/-- Witness for C7 at a concrete two-line output. -/
theorem c7_execute_local_progress_witness :
    (execute_local [['a'], ['b']]).1 = [['a'], ['b']].flatten :=
  (c7_execute_local_progress [['a'], ['b']] 0 1 (by decide) (by decide)).1

theorem digitsToNat_append_digit (xs : List Char) (c : Char) :
    digitsToNat (xs ++ [c]) = 10 * digitsToNat xs + (c.toNat - 48) := by
  unfold digitsToNat
  rw [List.foldl_append]
  rfl

theorem dChar_toNat (d : Nat) (h : d < 10) : (dChar d).toNat = 48 + d := by
  interval_cases d <;> rfl

theorem natDigitsGo_spec : ∀ fuel n, n < fuel →
    digitsToNat (natDigitsGo fuel n) = n
    ∧ (natDigitsGo fuel n).all isDigit09 = true
    ∧ natDigitsGo fuel n ≠ [] := by
  intro fuel
  induction fuel with
  | zero => intro n h; omega
  | succ fuel ih =>
    intro n h
    by_cases h10 : n < 10
    · refine ⟨?_, ?_, ?_⟩
      · show digitsToNat (if n < 10 then [dChar n] else _) = n
        rw [if_pos h10]
        show 10 * 0 + ((dChar n).toNat - 48) = n
        rw [dChar_toNat n h10]
        omega
      · show (if n < 10 then [dChar n] else _).all isDigit09 = true
        rw [if_pos h10]
        simp only [List.all_cons, List.all_nil, Bool.and_true, isDigit09,
          dChar_toNat n h10, Bool.and_eq_true, decide_eq_true_eq]
        omega
      · show (if n < 10 then [dChar n] else _) ≠ []
        rw [if_pos h10]
        simp
    · have hdiv : n / 10 < fuel := by
        have := Nat.div_lt_self (show 0 < n by omega) (show 1 < 10 by omega)
        omega
      obtain ⟨ih1, ih2, ih3⟩ := ih (n / 10) hdiv
      refine ⟨?_, ?_, ?_⟩
      · show digitsToNat
            (if n < 10 then [dChar n] else natDigitsGo fuel (n / 10) ++ [dChar (n % 10)]) = n
        rw [if_neg h10, digitsToNat_append_digit, ih1, dChar_toNat (n % 10) (by omega)]
        omega
      · show (if n < 10 then [dChar n]
            else natDigitsGo fuel (n / 10) ++ [dChar (n % 10)]).all isDigit09 = true
        rw [if_neg h10, List.all_append, ih2]
        simp only [Bool.true_and, List.all_cons, List.all_nil, Bool.and_true, isDigit09,
          dChar_toNat (n % 10) (by omega), Bool.and_eq_true, decide_eq_true_eq]
        omega
      · show (if n < 10 then [dChar n]
            else natDigitsGo fuel (n / 10) ++ [dChar (n % 10)]) ≠ []
        rw [if_neg h10]
        simp

theorem natDigits_spec (n : Nat) :
    digitsToNat (natDigits n) = n
    ∧ (natDigits n).all isDigit09 = true
    ∧ natDigits n ≠ [] :=
  natDigitsGo_spec (n + 1) n (by omega)

theorem isDigit09_ne_dash (c : Char) (h : isDigit09 c = true) : c ≠ '-' := by
  intro hc
  subst hc
  exact absurd h (by decide)

theorem renderInt_chars (i : Int) (c : Char) (hc : c ∈ renderInt i) :
    c = '-' ∨ isDigit09 c = true := by
  unfold renderInt at hc
  by_cases hneg : i < 0
  · rw [if_pos hneg] at hc
    rcases List.mem_cons.mp hc with h | h
    · exact Or.inl h
    · exact Or.inr (List.all_eq_true.mp (natDigits_spec i.natAbs).2.1 c h)
  · rw [if_neg hneg] at hc
    exact Or.inr (List.all_eq_true.mp (natDigits_spec i.natAbs).2.1 c hc)

theorem parseScalar_renderInt (i : Int) : parseScalar (renderInt i) = .int i := by
  obtain ⟨hval, hall, hne⟩ := natDigits_spec i.natAbs
  by_cases hneg : i < 0
  · have hr : renderInt i = '-' :: natDigits i.natAbs := if_pos hneg
    have hemp : (natDigits i.natAbs).isEmpty = false := by
      cases hd : natDigits i.natAbs with
      | nil => exact absurd hd hne
      | cons a as => rfl
    have hlit : isIntLit ('-' :: natDigits i.natAbs) = true := by
      show (if ('-' : Char) = '-' then !(natDigits i.natAbs).isEmpty
          && (natDigits i.natAbs).all isDigit09
          else ('-' :: natDigits i.natAbs).all isDigit09) = true
      rw [if_pos rfl, hemp, hall]
      rfl
    have hparse : parseIntLit ('-' :: natDigits i.natAbs) =
        -(digitsToNat (natDigits i.natAbs) : Int) := by
      show (if ('-' : Char) = '-' then -(digitsToNat (natDigits i.natAbs) : Int)
          else (digitsToNat ('-' :: natDigits i.natAbs) : Int)) =
        -(digitsToNat (natDigits i.natAbs) : Int)
      rw [if_pos rfl]
    rw [hr]
    unfold parseScalar
    rw [hlit, if_pos rfl, hparse, hval]
    congr 1
    omega
  · have hr : renderInt i = natDigits i.natAbs := if_neg hneg
    cases hd : natDigits i.natAbs with
    | nil => exact absurd hd hne
    | cons a as =>
      rw [hd] at hval hall
      have ha : isDigit09 a = true := by
        have := List.all_eq_true.mp hall a (by simp)
        exact this
      have hadash : a ≠ '-' := isDigit09_ne_dash a ha
      have hlit : isIntLit (a :: as) = true := by
        show (if a = '-' then !as.isEmpty && as.all isDigit09
            else (a :: as).all isDigit09) = true
        rw [if_neg hadash, hall]
      have hparse : parseIntLit (a :: as) = (digitsToNat (a :: as) : Int) := by
        show (if a = '-' then -(digitsToNat as : Int)
            else (digitsToNat (a :: as) : Int)) = (digitsToNat (a :: as) : Int)
        rw [if_neg hadash]
      rw [hr, hd]
      unfold parseScalar
      rw [hlit, if_pos rfl, hparse, hval]
      congr 1
      omega

theorem takeWhile_no_colon (ks rest : List Char) (h : ∀ c ∈ ks, c ≠ ':') :
    (ks ++ ':' :: rest).takeWhile (fun c => c != ':') = ks := by
  induction ks with
  | nil => simp [List.takeWhile]
  | cons k ks' ih =>
    have hk : (k != ':') = true := bne_iff_ne.mpr (h k (by simp))
    simp only [List.cons_append, List.takeWhile_cons, hk, if_true]
    rw [ih (fun c hc => h c (by simp [hc]))]

theorem dropWhile_no_colon (ks rest : List Char) (h : ∀ c ∈ ks, c ≠ ':') :
    (ks ++ ':' :: rest).dropWhile (fun c => c != ':') = ':' :: rest := by
  induction ks with
  | nil => simp [List.dropWhile]
  | cons k ks' ih =>
    have hk : (k != ':') = true := bne_iff_ne.mpr (h k (by simp))
    simp only [List.cons_append, List.dropWhile_cons, hk, if_true]
    exact ih (fun c hc => h c (by simp [hc]))

theorem parseLine_entry (k : String) (v : ParamVal)
    (hk : ∀ c ∈ k.data, c ≠ ':')
    (hv : parseScalar (renderParam v) = v) :
    parseLine (k.data ++ ':' :: ' ' :: renderParam v) = some (k, v) := by
  unfold parseLine
  rw [dropWhile_no_colon k.data (' ' :: renderParam v) hk]
  show some (String.mk ((k.data ++ ':' :: ' ' :: renderParam v).takeWhile (fun c => c != ':')),
      parseScalar (renderParam v)) = some (k, v)
  rw [takeWhile_no_colon k.data (' ' :: renderParam v) hk, hv]

theorem splitNl_line (content rest : List Char) (h : '\n' ∉ content) :
    splitNl (content ++ '\n' :: rest) = content :: splitNl rest := by
  induction content with
  | nil =>
    show (if '\n' = '\n' then [] :: splitNl rest
        else match splitNl rest with
          | [] => [['\n']]
          | l :: ls => ('\n' :: l) :: ls) = [] :: splitNl rest
    rw [if_pos rfl]
  | cons c cs ih =>
    have hc : ¬(c = '\n') := fun hx => h (by simp [hx])
    have htail : '\n' ∉ cs := fun hx => h (by simp [hx])
    show (if c = '\n' then [] :: splitNl (cs ++ '\n' :: rest)
        else match splitNl (cs ++ '\n' :: rest) with
          | [] => [[c]]
          | l :: ls => (c :: l) :: ls) = (c :: cs) :: splitNl rest
    rw [if_neg hc, ih htail]

theorem paramsWF_cons (k : String) (v : ParamVal) (rest : List (String × ParamVal))
    (h : paramsWF ((k, v) :: rest) = true) :
    (∀ c ∈ k.data, c ≠ ':' ∧ c ≠ '\n' ∧ c.toNat < 128)
    ∧ (∀ s, v = .str s → (∀ c ∈ s.data, c ≠ '\n' ∧ c.toNat < 128) ∧ isIntLit s.data = false)
    ∧ paramsWF rest = true := by
  cases v with
  | int i =>
    unfold paramsWF at h
    simp only [Bool.and_eq_true] at h
    refine ⟨?_, ?_, h.2⟩
    · intro c hc
      have := List.all_eq_true.mp h.1.1 c hc
      simp only [Bool.and_eq_true, bne_iff_ne, decide_eq_true_eq] at this
      exact ⟨this.1.1, this.1.2, this.2⟩
    · intro s hs
      cases hs
  | str s0 =>
    unfold paramsWF at h
    simp only [Bool.and_eq_true] at h
    refine ⟨?_, ?_, h.2⟩
    · intro c hc
      have := List.all_eq_true.mp h.1.1 c hc
      simp only [Bool.and_eq_true, bne_iff_ne, decide_eq_true_eq] at this
      exact ⟨this.1.1, this.1.2, this.2⟩
    · intro s hs
      cases hs
      have hv := h.1.2
      simp only [Bool.and_eq_true, Bool.not_eq_true'] at hv
      refine ⟨?_, hv.2⟩
      intro c hc
      have := List.all_eq_true.mp hv.1 c hc
      simp only [Bool.and_eq_true, bne_iff_ne, decide_eq_true_eq] at this
      exact this

theorem renderParam_no_newline (k : String) (v : ParamVal) (rest : List (String × ParamVal))
    (h : paramsWF ((k, v) :: rest) = true) :
    '\n' ∉ (k.data ++ ':' :: ' ' :: renderParam v) := by
  obtain ⟨hk, hv, -⟩ := paramsWF_cons k v rest h
  intro hmem
  rcases List.mem_append.mp hmem with hm | hm
  · exact (hk _ hm).2.1 rfl
  · simp only [List.mem_cons] at hm
    rcases hm with hm | hm | hm
    · exact absurd hm (by decide)
    · exact absurd hm (by decide)
    · cases v with
      | int i =>
        rcases renderInt_chars i '\n' hm with hd | hd
        · exact absurd hd (by decide)
        · exact absurd hd (by decide)
      | str s => exact ((hv s rfl).1 '\n' hm).1 rfl

theorem splitNl_dump (m : List (String × ParamVal)) (h : paramsWF m = true) :
    splitNl (yaml_dump m) =
      (m.map (fun kv => kv.1.data ++ ':' :: ' ' :: renderParam kv.2)) ++ [[]] := by
  induction m with
  | nil => rfl
  | cons kv rest ih =>
    obtain ⟨k, v⟩ := kv
    have hrest : paramsWF rest = true := (paramsWF_cons k v rest h).2.2
    have hstep : yaml_dump ((k, v) :: rest) =
        (k.data ++ ':' :: ' ' :: renderParam v) ++ '\n' :: yaml_dump rest := by
      show dumpLine k v ++ yaml_dump rest = _
      unfold dumpLine
      simp
    rw [hstep, splitNl_line _ _ (renderParam_no_newline k v rest h), ih hrest]
    simp

theorem parseLines_dump (m : List (String × ParamVal)) (h : paramsWF m = true) :
    parseLines (m.map (fun kv => kv.1.data ++ ':' :: ' ' :: renderParam kv.2)) = some m := by
  induction m with
  | nil => rfl
  | cons kv rest ih =>
    obtain ⟨k, v⟩ := kv
    obtain ⟨hk, hv, hrest⟩ := paramsWF_cons k v rest h
    have hps : parseScalar (renderParam v) = v := by
      cases v with
      | int i => exact parseScalar_renderInt i
      | str s =>
        show parseScalar s.data = ParamVal.str s
        unfold parseScalar
        rw [(hv s rfl).2, if_neg (by simp)]
    have hline : parseLine (k.data ++ ':' :: ' ' :: renderParam v) = some (k, v) :=
      parseLine_entry k v (fun c hc => (hk c hc).1) hps
    show (match parseLine (k.data ++ ':' :: ' ' :: renderParam v) with
      | some kv => (parseLines (rest.map (fun kv => kv.1.data ++ ':' :: ' ' :: renderParam kv.2))).map
          (fun m2 => kv :: m2)
      | none => none) = some ((k, v) :: rest)
    rw [hline, ih hrest]
    rfl

theorem yaml_roundtrip (m : List (String × ParamVal)) (h : paramsWF m = true) :
    yaml_load (yaml_dump m) = some m := by
  unfold yaml_load
  rw [splitNl_dump m h, List.getLast?_concat, List.dropLast_concat, if_pos rfl]
  exact parseLines_dump m h

theorem b64Index_b64Char : ∀ n, n < 64 → b64Index (b64Char n) = some n := by decide

theorem b64Char_ne_pad : ∀ n, n < 64 → b64Char n ≠ '=' := by decide

theorem b64_roundtrip : ∀ (bs : List Nat), (∀ b ∈ bs, b < 256) →
    b64decode (b64encode bs) = some bs
  | [], _ => rfl
  | [b1], h => by
    have hb1 : b1 < 256 := h b1 (by simp)
    show b64decode (b64Char (b1 / 4) :: b64Char (b1 % 4 * 16) :: '=' :: '=' :: []) = some [b1]
    unfold b64decode
    simp [b64Index_b64Char (b1 / 4) (by omega), b64Index_b64Char (b1 % 4 * 16) (by omega),
      show b1 % 4 * 16 % 16 = 0 by omega]
    omega
  | [b1, b2], h => by
    have hb1 : b1 < 256 := h b1 (by simp)
    have hb2 : b2 < 256 := h b2 (by simp)
    show b64decode (b64Char (b1 / 4) :: b64Char (b1 % 4 * 16 + b2 / 16) ::
        b64Char (b2 % 16 * 4) :: '=' :: []) = some [b1, b2]
    unfold b64decode
    simp [b64Index_b64Char (b1 / 4) (by omega),
      b64Index_b64Char (b1 % 4 * 16 + b2 / 16) (by omega),
      b64Index_b64Char (b2 % 16 * 4) (by omega),
      b64Char_ne_pad (b2 % 16 * 4) (by omega),
      show b2 % 16 * 4 % 4 = 0 by omega,
      show b1 / 4 * 4 + (b1 % 4 * 16 + b2 / 16) / 16 = b1 by omega]
    omega
  | [b1, b2, b3], h => by
    have hb1 : b1 < 256 := h b1 (by simp)
    have hb2 : b2 < 256 := h b2 (by simp)
    have hb3 : b3 < 256 := h b3 (by simp)
    show b64decode (b64Char (b1 / 4) :: b64Char (b1 % 4 * 16 + b2 / 16) ::
        b64Char (b2 % 16 * 4 + b3 / 64) :: b64Char (b3 % 64) :: []) = some [b1, b2, b3]
    unfold b64decode
    rw [show b64decode [] = some [] from rfl]
    simp [b64Index_b64Char (b1 / 4) (by omega),
      b64Index_b64Char (b1 % 4 * 16 + b2 / 16) (by omega),
      b64Index_b64Char (b2 % 16 * 4 + b3 / 64) (by omega),
      b64Index_b64Char (b3 % 64) (by omega),
      b64Char_ne_pad (b2 % 16 * 4 + b3 / 64) (by omega),
      b64Char_ne_pad (b3 % 64) (by omega),
      show b1 / 4 * 4 + (b1 % 4 * 16 + b2 / 16) / 16 = b1 by omega,
      show (b1 % 4 * 16 + b2 / 16) % 16 * 16 + (b2 % 16 * 4 + b3 / 64) / 4 = b2 by omega,
      show (b2 % 16 * 4 + b3 / 64) % 4 * 64 + b3 % 64 = b3 by omega]
  | b1 :: b2 :: b3 :: b4 :: rest, h => by
    have hb1 : b1 < 256 := h b1 (by simp)
    have hb2 : b2 < 256 := h b2 (by simp)
    have hb3 : b3 < 256 := h b3 (by simp)
    have hrest : ∀ b ∈ b4 :: rest, b < 256 := by
      intro b hb
      apply h
      simp only [List.mem_cons] at hb ⊢
      tauto
    show b64decode (b64Char (b1 / 4) :: b64Char (b1 % 4 * 16 + b2 / 16) ::
        b64Char (b2 % 16 * 4 + b3 / 64) :: b64Char (b3 % 64) ::
          b64encode (b4 :: rest)) = some (b1 :: b2 :: b3 :: b4 :: rest)
    unfold b64decode
    rw [b64_roundtrip (b4 :: rest) hrest]
    simp [b64Index_b64Char (b1 / 4) (by omega),
      b64Index_b64Char (b1 % 4 * 16 + b2 / 16) (by omega),
      b64Index_b64Char (b2 % 16 * 4 + b3 / 64) (by omega),
      b64Index_b64Char (b3 % 64) (by omega),
      b64Char_ne_pad (b2 % 16 * 4 + b3 / 64) (by omega),
      b64Char_ne_pad (b3 % 64) (by omega),
      show b1 / 4 * 4 + (b1 % 4 * 16 + b2 / 16) / 16 = b1 by omega,
      show (b1 % 4 * 16 + b2 / 16) % 16 * 16 + (b2 % 16 * 4 + b3 / 64) / 4 = b2 by omega,
      show (b2 % 16 * 4 + b3 / 64) % 4 * 64 + b3 % 64 = b3 by omega]

theorem isDigit09_ascii (c : Char) (h : isDigit09 c = true) : c.toNat < 128 := by
  unfold isDigit09 at h
  simp only [Bool.and_eq_true, decide_eq_true_eq] at h
  omega

theorem dump_ascii (m : List (String × ParamVal)) (h : paramsWF m = true) :
    ∀ c ∈ yaml_dump m, c.toNat < 128 := by
  induction m with
  | nil => intro c hc; cases hc
  | cons kv rest ih =>
    obtain ⟨k, v⟩ := kv
    obtain ⟨hk, hv, hrest⟩ := paramsWF_cons k v rest h
    intro c hc
    rcases List.mem_append.mp hc with hm | hm
    · simp only [dumpLine, List.mem_append, List.mem_cons, List.mem_singleton] at hm
      rcases hm with (hm | hm | hm | hm) | hm | hm
      · exact (hk c hm).2.2
      · subst hm; decide
      · subst hm; decide
      · cases v with
        | int i =>
          rcases renderInt_chars i c hm with hd | hd
          · subst hd; decide
          · exact isDigit09_ascii c hd
        | str s => exact ((hv s rfl).1 c hm).2
      · subst hm; decide
      · cases hm
    · exact ih hrest c hm

theorem map_ofNat_toNat (l : List Char) :
    (l.map Char.toNat).map Char.ofNat = l := by
  rw [List.map_map]
  have : ∀ c ∈ l, (Char.ofNat ∘ Char.toNat) c = id c := by
    intro c _
    simp [Char.ofNat_toNat]
  rw [List.map_congr_left this, List.map_id]

/-- C8: for every well-formed flat parameter mapping of scalar values,
serializing it via the structured-data encoding, base64-encoding it for
transit, then base64-decoding and deserializing the blob recovers the
original mapping (in particular for `{"alpha": 1, "beta": "x"}`). -/
theorem c8_parameter_roundtrip (m : List (String × ParamVal)) (h : paramsWF m = true) :
    decode_parameters (parameters_encoded m) = some m := by
  have hbytes : ∀ b ∈ (yaml_dump m).map Char.toNat, b < 256 := by
    intro b hb
    obtain ⟨c, hc, rfl⟩ := List.mem_map.mp hb
    have := dump_ascii m h c hc
    omega
  unfold decode_parameters parameters_encoded
  rw [b64_roundtrip _ hbytes]
  show yaml_load (((yaml_dump m).map Char.toNat).map Char.ofNat) = some m
  rw [map_ofNat_toNat _]
  exact yaml_roundtrip m h

/-- Witness for C8 at the specification's example mapping. -/
theorem c8_parameter_roundtrip_witness :
    decode_parameters (parameters_encoded [("alpha", ParamVal.int 1), ("beta", ParamVal.str "x")]) =
      some [("alpha", ParamVal.int 1), ("beta", ParamVal.str "x")] :=
  c8_parameter_roundtrip _ (by decide)
